import Mathlib

set_option maxHeartbeats 1000000

/- Verification development for the Yeti terminal text editor (yeti.c).
   The definitions below are a shallow embedding of the editing engine:
   rows with tab-expanded render text, the cursor/render column mappings,
   the row and buffer edit primitives, the scroll/refresh state updates,
   the snapshot undo stack, the save path, the incremental search scan and
   the escape-sequence key decoder.  C ints are modeled as Int, C char
   arrays as List Char, and the row array together with its textrows count
   as a List of rows (textrows always equals the array length in the C). -/

/-- Tab stop width, from the YETI_TAB_STOP macro. -/
def YETI_TAB_STOP : Nat := 8

/-- Model of struct erow: one line of text plus its render expansion.  The C
size and rsize fields always hold the lengths of text and render, so they
are kept implicit as list lengths. -/
structure Erow where
  text : List Char
  render : List Char
  deriving Repr, DecidableEq

instance : Inhabited Erow := ⟨⟨[], []⟩⟩

/-- Inner loop of editorUpdateRow.  idx is the current render column; a tab
emits one space and then the while loop pads with spaces until idx is a
multiple of YETI_TAB_STOP, in total YETI_TAB_STOP - idx % YETI_TAB_STOP
spaces; any other byte is copied and advances idx by one. -/
def updateRowLoop : List Char → Nat → List Char
  | [], _ => []
  | c :: rest, idx =>
    if c = '\t' then
      List.replicate (YETI_TAB_STOP - idx % YETI_TAB_STOP) ' '
        ++ updateRowLoop rest (idx + (YETI_TAB_STOP - idx % YETI_TAB_STOP))
    else
      c :: updateRowLoop rest (idx + 1)

/-- editorUpdateRow: recompute render from text (rsize is the length of the
result). -/
def editorUpdateRow (row : Erow) : Erow :=
  { row with render := updateRowLoop row.text 0 }

/-- Specification-side tab expansion, written from the words of the spec:
render equals text with every tab byte expanded so the visual column
advances to the next multiple of 8.  The accumulator length is the visual
column; it is compared against editorUpdateRow. -/
def specExpand (text : List Char) : List Char :=
  text.foldl
    (fun acc c =>
      if c = '\t' then acc ++ List.replicate (YETI_TAB_STOP - acc.length % YETI_TAB_STOP) ' '
      else acc ++ [c]) []

/-- Loop of editorRowCxToRx: walk the first cx bytes of text, a tab advances
rx to the next multiple of YETI_TAB_STOP, any other byte advances rx by 1.
The C reads row-gt-text[j] for j up to cx; callers keep cx within the text. -/
def cxToRxLoop : List Char → Nat → Nat → Nat
  | _, 0, rx => rx
  | [], _ + 1, rx => rx
  | c :: rest, j + 1, rx =>
    cxToRxLoop rest j (rx + (if c = '\t' then YETI_TAB_STOP - rx % YETI_TAB_STOP else 1))

/-- editorRowCxToRx. -/
def editorRowCxToRx (row : Erow) (cx : Nat) : Nat :=
  cxToRxLoop row.text cx 0

/-- Loop of editorRowRxToCx: walk the text keeping the cumulative render
column cur; return the first character column whose cumulative render
column strictly exceeds the target rx, or the text length if none does. -/
def rxToCxLoop : List Char → Nat → Nat → Nat → Nat
  | [], _, _, cx => cx
  | c :: rest, rx, cur, cx =>
    let cur2 := cur + (if c = '\t' then YETI_TAB_STOP - cur % YETI_TAB_STOP else 1)
    if rx < cur2 then cx else rxToCxLoop rest rx cur2 (cx + 1)

/-- editorRowRxToCx. -/
def editorRowRxToCx (row : Erow) (rx : Nat) : Nat :=
  rxToCxLoop row.text rx 0 0

/-- editorRowInsertChar: insert byte c at text offset pos (the memmove shifts
the tail right), then recompute render.  The C bumps state.modified here;
that counter lives on the editor state and the state-level wrappers below
perform the bump. -/
def editorRowInsertChar (row : Erow) (pos : Int) (c : Char) : Erow :=
  editorUpdateRow { row with text := row.text.take pos.toNat ++ c :: row.text.drop pos.toNat }

/-- editorRowAppendString: append s to the row text, then recompute render. -/
def editorRowAppendString (row : Erow) (s : List Char) : Erow :=
  editorUpdateRow { row with text := row.text ++ s }

/-- editorRowDelChar: remove the byte at text offset pos (the memmove pulls
the tail left), then recompute render. -/
def editorRowDelChar (row : Erow) (pos : Int) : Erow :=
  editorUpdateRow { row with text := row.text.take pos.toNat ++ row.text.drop (pos.toNat + 1) }

/-- Values of enum editorKey. -/
def BACKSPACE : Int := 127

/-- Arrow-left key code. -/
def ARROW_LEFT : Int := 1000

/-- Arrow-right key code. -/
def ARROW_RIGHT : Int := 1001

/-- Arrow-up key code. -/
def ARROW_UP : Int := 1002

/-- Arrow-down key code. -/
def ARROW_DOWN : Int := 1003

/-- Page-up key code. -/
def PAGE_UP : Int := 1004

/-- Page-down key code. -/
def PAGE_DOWN : Int := 1005

/-- Delete key code. -/
def DEL_KEY : Int := 1006

/-- Home key code. -/
def HOME_KEY : Int := 1007

/-- End key code. -/
def END_KEY : Int := 1008

/-- Model of struct editorConfig.  textrows always equals the length of the
row array in the C, so it is rows.length here; the termios field and the
status-message timestamp are terminal-only and omitted. -/
structure EState where
  linenooff : Int
  modified : Int
  filename : Option String
  cx : Int
  cy : Int
  rx : Int
  rowoff : Int
  coloff : Int
  screenrows : Int
  screencols : Int
  rows : List Erow
  statusmsg : String
  deriving Repr, DecidableEq

instance : Inhabited EState :=
  ⟨{ linenooff := 0, modified := 0, filename := none, cx := 0, cy := 0, rx := 0,
     rowoff := 0, coloff := 0, screenrows := 0, screencols := 0, rows := [], statusmsg := "" }⟩

/-- Row built by editorInsertRow from a source string: text copied, render
recomputed by editorUpdateRow. -/
def mkRow (str : List Char) : Erow :=
  editorUpdateRow { text := str, render := [] }

/-- Loop of calculateDigits: divide by 10 until the number is 0, counting the
steps.  The loop runs at most n times (n / 10 is at most n), so passing n
itself as fuel makes the recursion structural without changing the result. -/
def calculateDigitsAux : Nat → Nat → Nat
  | 0, _ => 0
  | _ + 1, 0 => 0
  | fuel + 1, n + 1 => calculateDigitsAux fuel ((n + 1) / 10) + 1

/-- calculateDigits: decimal digit count of a line count (0 for 0). -/
def calculateDigits (n : Nat) : Nat := calculateDigitsAux n n

/-- editorInsertRow: insert a new row at index pos (the memmove shifts the
tail down), recompute its render, bump textrows (implicit in the list
length) and modified. -/
def editorInsertRow (s : EState) (pos : Int) (str : List Char) : EState :=
  { s with rows := s.rows.take pos.toNat ++ mkRow str :: s.rows.drop pos.toNat,
           modified := s.modified + 1 }

/-- editorDelRow: remove the row at index pos after the bounds check, pulling
the tail up, and bump modified. -/
def editorDelRow (s : EState) (pos : Int) : EState :=
  if pos < 0 ∨ pos ≥ (s.rows.length : Int) then s
  else
    { s with rows := s.rows.take pos.toNat ++ s.rows.drop (pos.toNat + 1),
             modified := s.modified + 1 }

/-- editorInsertChar: on the virtual line past the last row first append an
empty row; insert c at text offset cx - linenooff of the current row;
advance cx.  The modified bump sits inside editorRowInsertChar in the C.
The conditional editorAddState call only copies state into the undo list
and is modeled at the undo layer. -/
def editorInsertChar (s : EState) (c : Char) : EState :=
  let s1 := if s.cy = (s.rows.length : Int) then editorInsertRow s (s.rows.length : Int) [] else s
  let row := s1.rows.getD s1.cy.toNat default
  { s1 with rows := s1.rows.set s1.cy.toNat (editorRowInsertChar row (s1.cx - s1.linenooff) c),
            cx := s1.cx + 1,
            modified := s1.modified + 1 }

/-- editorInsertNewLine: at the row start insert an empty row before the
current one; otherwise insert the tail of the current row as a new row
below and truncate the current row at the cursor; then move down to the
start column. -/
def editorInsertNewLine (s : EState) : EState :=
  let s1 :=
    if s.cx = s.linenooff then editorInsertRow s s.cy []
    else
      let row := s.rows.getD s.cy.toNat default
      let s2 := editorInsertRow s (s.cy + 1) (row.text.drop (s.cx - s.linenooff).toNat)
      let row2 := s2.rows.getD s.cy.toNat default
      let row3 := editorUpdateRow { row2 with text := row2.text.take (s.cx - s.linenooff).toNat }
      { s2 with rows := s2.rows.set s.cy.toNat row3 }
  { s1 with cy := s.cy + 1, cx := s.linenooff }

/-- editorDelChar: nothing on the virtual line or at the very start of the
buffer; inside a line delete the previous byte and step left; at the start
of a later line append the line to the previous one, delete it, recompute
the gutter width and put the cursor at the join point.  Both row helpers
bump modified, modeled by the explicit bumps here; the conditional
editorAddState call is modeled at the undo layer. -/
def editorDelChar (s : EState) : EState :=
  if s.cy = (s.rows.length : Int) then s
  else if s.cx = s.linenooff ∧ s.cy = 0 then s
  else
    let row := s.rows.getD s.cy.toNat default
    if s.cx > s.linenooff then
      { s with rows := s.rows.set s.cy.toNat (editorRowDelChar row (s.cx - s.linenooff - 1)),
               cx := s.cx - 1,
               modified := s.modified + 1 }
    else
      let prev := s.rows.getD (s.cy - 1).toNat default
      let s1 := { s with rows := s.rows.set (s.cy - 1).toNat (editorRowAppendString prev row.text),
                         modified := s.modified + 1 }
      let s2 := editorDelRow s1 s.cy
      let lw : Int := (calculateDigits s2.rows.length : Int) + 1
      { s2 with linenooff := lw,
                cx := ((s2.rows.getD (s.cy - 1).toNat default).text.length : Int) + lw,
                cy := s.cy - 1 }

/-- Trailing clamp of editorMoveCursor: look up the destination row (none on
the virtual line) and snap cx back to the end of that row when it sits
past it. -/
def moveCursorClamp (s : EState) : EState :=
  let row : Option Erow :=
    if s.cy < (s.rows.length : Int) then some (s.rows.getD s.cy.toNat default) else none
  match row with
  | some r =>
    if s.cx > (r.text.length : Int) + s.linenooff then
      { s with cx := (r.text.length : Int) + s.linenooff }
    else s
  | none => s

/-- editorMoveCursor: arrow-key cursor movement, with the final clamp of cx
to the end of the destination line. -/
def editorMoveCursor (s : EState) (key : Int) : EState :=
  let n : Int := (s.rows.length : Int)
  let currRow : Option Erow := if s.cy ≥ n then none else some (s.rows.getD s.cy.toNat default)
  let s1 :=
    if key = ARROW_LEFT then
      if s.cy ≠ 0 ∧ s.cx = s.linenooff then
        let cy2 := s.cy - 1
        { s with cy := cy2,
                 cx := ((s.rows.getD cy2.toNat default).text.length : Int) + s.linenooff }
      else if s.cx > s.linenooff then { s with cx := s.cx - 1 } else s
    else if key = ARROW_RIGHT then
      match currRow with
      | some r =>
        if s.cx = (r.text.length : Int) + s.linenooff ∧ s.cy < n - 1 then
          { s with cy := s.cy + 1, cx := s.linenooff }
        else if s.cx < (r.text.length : Int) + s.linenooff then { s with cx := s.cx + 1 }
        else s
      | none => s
    else if key = ARROW_UP then (if s.cy ≠ 0 then { s with cy := s.cy - 1 } else s)
    else if key = ARROW_DOWN then (if s.cy < n - 1 then { s with cy := s.cy + 1 } else s)
    else s
  moveCursorClamp s1

/-- Edit operations dispatched by editorProcessKeypress that touch the buffer
or the cursor. -/
inductive EditOp
  | insertChar (c : Char)
  | insertNewLine
  | delChar
  | moveCursor (key : Int)
  deriving Repr, DecidableEq

/-- Apply one edit operation. -/
def applyOp (s : EState) : EditOp → EState
  | .insertChar c => editorInsertChar s c
  | .insertNewLine => editorInsertNewLine s
  | .delChar => editorDelChar s
  | .moveCursor k => editorMoveCursor s k

/-- Apply a sequence of edit operations in order. -/
def applyOps (s : EState) (ops : List EditOp) : EState :=
  ops.foldl applyOp s

/-- editorScroll: recompute rx from the cursor row and cx, then clamp rowoff
and coloff so the cursor stays inside the visible window.  The C passes
state.cx (gutter columns included) straight to editorRowCxToRx. -/
def editorScroll (s : EState) : EState :=
  let rx : Int :=
    if s.cy < (s.rows.length : Int) then
      (editorRowCxToRx (s.rows.getD s.cy.toNat default) s.cx.toNat : Int)
    else 0
  let rowoff := if s.cy < s.rowoff then s.cy else s.rowoff
  let rowoff := if s.cy ≥ rowoff + s.screenrows then s.cy - s.screenrows + 1 else rowoff
  let coloff := if rx < s.coloff + s.linenooff then rx - s.linenooff else s.coloff
  let coloff := if rx ≥ coloff + s.screencols then rx - s.screencols + 1 else coloff
  { s with rx := rx, rowoff := rowoff, coloff := coloff }

/-- State effect of editorDrawRows: whenever some visible screen row shows a
text row (filerow below textrows), the loop stores the gutter width
calculateDigits(textrows) + 1 into linenooff.  With at least one screen
row and rowoff below the row count the first screen row already does so. -/
def editorDrawRowsLineno (s : EState) : EState :=
  if 0 < s.screenrows ∧ s.rowoff < (s.rows.length : Int) then
    { s with linenooff := (calculateDigits s.rows.length : Int) + 1 }
  else s

/-- Cursor fixup at the end of editorRefreshScreen: only when both cx and rx
sit left of the gutter width are they pushed to the gutter edge. -/
def editorCursorFixup (s : EState) : EState :=
  if s.cx < s.linenooff ∧ s.rx < s.linenooff then
    { s with cx := s.linenooff, rx := s.linenooff }
  else s

/-- State effect of editorRefreshScreen: scroll, the linenooff update done by
editorDrawRows, then the cursor fixup.  Drawing itself only writes to the
terminal. -/
def editorRefreshScreenState (s : EState) : EState :=
  editorCursorFixup (editorDrawRowsLineno (editorScroll s))

/-- Status message shown when undo has nothing to revert (text from the C). -/
def matchesDiskMsg : String := "Current file matches with the file on the disk"

/-- Status message shown after a successful undo (text from the C). -/
def undoSuccessMsg : String := "Undo successfull!"

/-- Status message when the save-as prompt is cancelled. -/
def saveAbortMsg : String := "Save aborted"

/-- Status message on a save I/O failure (the C formats strerror into it). -/
def saveErrorMsg : String := "Cannot save! I/O error"

/-- Status message on a successful save. -/
def savedBytesMsg (len : Nat) : String := toString len ++ " bytes written to disk"

/-- Model of struct undoRedo: the stored snapshots and the current index.
ur.size always equals the number of live entries, so it is states.length;
editorResizeUR only adjusts the allocation.  The clone function pointer is
a deep copy, which on this value model is the identity. -/
structure UndoRedo where
  states : List EState
  currStateIndex : Int
  deriving Repr, DecidableEq

/-- editorAddState: append a deep copy of the live state and point the
current index at it (ur.size - 1 after the increment). -/
def editorAddState (ur : UndoRedo) (st : EState) : UndoRedo :=
  { states := ur.states ++ [st], currStateIndex := (ur.states.length : Int) }

/-- editorUndoState: decrement the index if positive; if the index is 0 with
no unsaved modifications (or negative) just report that the file matches
the disk; otherwise drop the top snapshot when more than one is stored
(ur.size -= 1 and editorResizeUR) and replace the live state with a deep
copy of the snapshot at the new index, set the success message, and run
the screen refresh the C triggers at the end. -/
def editorUndoState (ur : UndoRedo) (st : EState) : UndoRedo × EState :=
  let idx := if ur.currStateIndex > 0 then ur.currStateIndex - 1 else ur.currStateIndex
  if idx < 0 ∨ (idx = 0 ∧ st.modified = 0) then
    ({ states := ur.states, currStateIndex := 0 }, { st with statusmsg := matchesDiskMsg })
  else
    let states2 := if ur.states.length ≠ 1 then ur.states.dropLast else ur.states
    let restored := { (states2.getD idx.toNat default) with statusmsg := undoSuccessMsg }
    ({ states := states2, currStateIndex := idx }, editorRefreshScreenState restored)

/-- editorRowsToString: join all row texts, one newline after each row. -/
def editorRowsToString (s : EState) : List Char :=
  s.rows.foldr (fun r acc => r.text ++ '\n' :: acc) []

/-- Outcome of the save I/O calls: open, ftruncate and write can each fail. -/
inductive SaveOutcome
  | ok
  | openFail
  | truncateFail
  | writeFail
  deriving Repr, DecidableEq

/-- Body of editorSave once a filename is present.  On success: modified is
reset to 0, the byte-count message is set, the undo stack is truncated
(editorResizeUR(1); ur.size = 0; ur.currStateIndex = 0) and editorAddState
then pushes the just-saved state as the single snapshot.  On any I/O
failure only the error status message is set; buffer, modified and the
undo stack are untouched and the function returns normally, so the editor
keeps running. -/
def editorSaveBody (st : EState) (ur : UndoRedo) (io : SaveOutcome) : EState × UndoRedo :=
  let len := (editorRowsToString st).length
  match io with
  | .ok =>
    let st2 := { st with modified := 0, statusmsg := savedBytesMsg len }
    (st2, editorAddState { states := [], currStateIndex := 0 } st2)
  | _ => ({ st with statusmsg := saveErrorMsg }, ur)

/-- editorSave: with no filename yet, the save-as prompt either supplies one
or aborts; then the body above runs with the given I/O outcome. -/
def editorSave (st : EState) (ur : UndoRedo) (promptedName : Option String)
    (io : SaveOutcome) : EState × UndoRedo :=
  match st.filename with
  | none =>
    match promptedName with
    | none => ({ st with statusmsg := saveAbortMsg }, ur)
    | some nm => editorSaveBody { st with filename := some nm } ur io
  | some _ => editorSaveBody st ur io

/-- Position of the first occurrence of pat in hay, as strstr computes it
(0 for an empty pattern, none when absent). -/
def strstrPos (pat : List Char) : List Char → Option Nat
  | [] => if pat.isPrefixOf ([] : List Char) then some 0 else none
  | c :: t =>
    if pat.isPrefixOf (c :: t) then some 0
    else (strstrPos pat t).map (fun n => n + 1)

/-- Circular wrap used by the find loop: -1 wraps to the last row, textrows
wraps to row 0. -/
def wrapIdx (n : Nat) (c : Int) : Int :=
  if c = -1 then (n : Int) - 1 else if c = (n : Int) then 0 else c

/-- State update on a search hit: cursor to the matched row, cx to the
character column of the match byte offset via editorRowRxToCx plus the
gutter width, and rowoff forced to textrows so the next scroll recenters. -/
def searchFound (s : EState) (c : Int) (row : Erow) (pos : Nat) : EState :=
  { s with cy := c,
           cx := (editorRowRxToCx row pos : Int) + s.linenooff,
           rowoff := (s.rows.length : Int) }

/-- Scan loop of editorFindCallback: step current by the direction with
circular wrap, stop at the first row whose render contains the query;
fuel is textrows, so every row is visited at most once. -/
def findLoop (query : List Char) (s : EState) (d : Int) : Int → Nat → Option (Int × EState)
  | _, 0 => none
  | cur, fuel + 1 =>
    let c := wrapIdx s.rows.length (cur + d)
    let row := s.rows.getD c.toNat default
    match strstrPos query row.render with
    | some pos => some (c, searchFound s c row pos)
    | none => findLoop query s d c fuel

/-- Specification-side scan order: the row indices the loop steps through,
starting after cur, wrapping circularly. -/
def scanList (n : Nat) (d : Int) : Int → Nat → List Int
  | _, 0 => []
  | cur, fuel + 1 =>
    let c := wrapIdx n (cur + d)
    c :: scanList n d c fuel

/-- Specification-side selection: the first index in the scan order whose
render text contains the query, with the same state update as the code. -/
def firstHit (query : List Char) (s : EState) : List Int → Option (Int × EState)
  | [] => none
  | c :: rest =>
    let row := s.rows.getD c.toNat default
    match strstrPos query row.render with
    | some pos => some (c, searchFound s c row pos)
    | none => firstHit query s rest

/-- editorFindCallback: Enter and Escape reset the static search state;
Right and Down keep the last match and set the forward direction, Left and
Up the backward one; any other key resets the last match and the forward
direction.  With no last match the direction is forced forward, then the
scan loop runs over all rows.  The result is the triple of the new static
last match, direction and editor state. -/
def editorFindCallback (query : List Char) (key : Int) (lastMatch direction : Int)
    (s : EState) : Int × Int × EState :=
  if key = 13 ∨ key = 27 then (-1, 1, s)
  else
    let lm := if key = ARROW_RIGHT ∨ key = ARROW_DOWN then lastMatch
              else if key = ARROW_LEFT ∨ key = ARROW_UP then lastMatch
              else -1
    let d : Int := if key = ARROW_RIGHT ∨ key = ARROW_DOWN then 1
                   else if key = ARROW_LEFT ∨ key = ARROW_UP then -1
                   else 1
    let d := if lm = -1 then 1 else d
    match findLoop query s d lm s.rows.length with
    | some (c, s2) => (c, d, s2)
    | none => (lm, d, s)

/-- Result of one read attempt after the escape byte: a byte, or none when
the 100 ms timeout fires. -/
def readAt (reads : List (Option Int)) (i : Nat) : Option Int :=
  reads.getD i none

/-- editorReadKey after the first byte c has arrived: a non-escape byte is
returned as itself; after an escape up to two (or for digit sequences
three) further reads resolve the closed set of named keys, and every
timeout or unrecognized form degrades to the bare escape 27. -/
def editorReadKey (c : Int) (reads : List (Option Int)) : Int :=
  if c = 27 then
    match readAt reads 0 with
    | none => 27
    | some s0 =>
      match readAt reads 1 with
      | none => 27
      | some s1 =>
        if s0 = 91 then
          if 48 ≤ s1 ∧ s1 ≤ 57 then
            match readAt reads 2 with
            | none => 27
            | some s2 =>
              if s2 = 126 then
                if s1 = 49 then HOME_KEY
                else if s1 = 51 then DEL_KEY
                else if s1 = 52 then END_KEY
                else if s1 = 53 then PAGE_UP
                else if s1 = 54 then PAGE_DOWN
                else if s1 = 55 then HOME_KEY
                else if s1 = 56 then END_KEY
                else 27
              else 27
          else
            if s1 = 65 then ARROW_UP
            else if s1 = 66 then ARROW_DOWN
            else if s1 = 67 then ARROW_RIGHT
            else if s1 = 68 then ARROW_LEFT
            else if s1 = 72 then HOME_KEY
            else if s1 = 70 then END_KEY
            else 27
        else if s0 = 79 then
          if s1 = 72 then HOME_KEY else if s1 = 70 then END_KEY else 27
        else 27
  else c

/- ===== Lemmas and claim theorems ===== -/

/-- Row invariant: the render text is the tab expansion of the text. -/
def RowInv (r : Erow) : Prop :=
  r.render = specExpand r.text

instance (r : Erow) : Decidable (RowInv r) := by
  unfold RowInv; infer_instance

/-- Buffer invariant: every row satisfies RowInv. -/
def RowsInv (s : EState) : Prop :=
  ∀ r ∈ s.rows, RowInv r

lemma specExpand_foldl (t : List Char) :
    ∀ acc : List Char,
      t.foldl
        (fun acc c =>
          if c = '\t' then acc ++ List.replicate (YETI_TAB_STOP - acc.length % YETI_TAB_STOP) ' '
          else acc ++ [c]) acc
      = acc ++ updateRowLoop t acc.length := by
  induction t with
  | nil => intro acc; simp [updateRowLoop]
  | cons c rest ih =>
    intro acc
    rw [List.foldl_cons, ih]
    by_cases hc : c = '\t'
    · subst hc
      simp only [updateRowLoop, if_pos]
      rw [List.length_append, List.length_replicate, List.append_assoc]
    · simp only [updateRowLoop, if_neg hc]
      rw [List.length_append]
      simp

lemma updateRowLoop_spec (t : List Char) : updateRowLoop t 0 = specExpand t := by
  have h := specExpand_foldl t []
  simpa [specExpand] using h.symm

/-- editorUpdateRow establishes RowInv unconditionally. -/
lemma editorUpdateRow_inv (r : Erow) : RowInv (editorUpdateRow r) := by
  simp [RowInv, editorUpdateRow, updateRowLoop_spec]

lemma editorRowInsertChar_inv (r : Erow) (pos : Int) (c : Char) :
    RowInv (editorRowInsertChar r pos c) := editorUpdateRow_inv _

lemma editorRowDelChar_inv (r : Erow) (pos : Int) :
    RowInv (editorRowDelChar r pos) := editorUpdateRow_inv _

lemma editorRowAppendString_inv (r : Erow) (s : List Char) :
    RowInv (editorRowAppendString r s) := editorUpdateRow_inv _

lemma mkRow_inv (str : List Char) : RowInv (mkRow str) := editorUpdateRow_inv _

/-- Character-level edit operations applied to one row (the inserts and
deletes of claim C1). -/
inductive RowOp
  | ins (pos : Int) (c : Char)
  | del (pos : Int)
  | app (str : List Char)
  deriving Repr, DecidableEq

/-- Apply one row-level edit. -/
def applyRowOp (r : Erow) : RowOp → Erow
  | .ins pos c => editorRowInsertChar r pos c
  | .del pos => editorRowDelChar r pos
  | .app str => editorRowAppendString r str

/-- Apply a sequence of row-level edits. -/
def applyRowOps (r : Erow) (ops : List RowOp) : Erow :=
  ops.foldl applyRowOp r

lemma applyRowOp_inv (r : Erow) (op : RowOp) : RowInv (applyRowOp r op) := by
  cases op <;> exact editorUpdateRow_inv _

lemma applyRowOps_inv (r : Erow) (ops : List RowOp) (h : ops ≠ []) :
    RowInv (applyRowOps r ops) := by
  induction ops using List.reverseRecOn with
  | nil => exact absurd rfl h
  | append_singleton init op ih =>
    unfold applyRowOps
    rw [List.foldl_append]
    exact applyRowOp_inv _ _

lemma RowsInv_insertRow {s : EState} (hs : RowsInv s) (pos : Int) (str : List Char) :
    RowsInv (editorInsertRow s pos str) := by
  intro r hr
  simp only [editorInsertRow] at hr
  rcases List.mem_append.mp hr with h | h
  · exact hs r (List.mem_of_mem_take h)
  · rcases List.mem_cons.mp h with h | h
    · exact h ▸ mkRow_inv str
    · exact hs r (List.mem_of_mem_drop h)

lemma RowsInv_set {s : EState} (hs : RowsInv s) {x : Erow} (hx : RowInv x) (n : Nat) :
    ∀ r ∈ s.rows.set n x, RowInv r := by
  intro r hr
  rcases List.mem_or_eq_of_mem_set hr with h | h
  · exact hs r h
  · exact h ▸ hx

lemma RowsInv_delRow {s : EState} (hs : RowsInv s) (pos : Int) :
    RowsInv (editorDelRow s pos) := by
  intro r hr
  unfold editorDelRow at hr
  split at hr
  · exact hs r hr
  · simp only at hr
    rcases List.mem_append.mp hr with h | h
    · exact hs r (List.mem_of_mem_take h)
    · exact hs r (List.mem_of_mem_drop h)

lemma RowsInv_insertChar {s : EState} (hs : RowsInv s) (c : Char) :
    RowsInv (editorInsertChar s c) := by
  unfold editorInsertChar
  have hs1 : RowsInv (if s.cy = (s.rows.length : Int)
      then editorInsertRow s (s.rows.length : Int) [] else s) := by
    split
    · exact RowsInv_insertRow hs _ _
    · exact hs
  exact fun r hr => RowsInv_set hs1 (editorUpdateRow_inv _) _ r hr

lemma RowsInv_insertNewLine {s : EState} (hs : RowsInv s) :
    RowsInv (editorInsertNewLine s) := by
  unfold editorInsertNewLine
  split
  · exact fun r hr => RowsInv_insertRow hs _ _ r hr
  · exact fun r hr => RowsInv_set (RowsInv_insertRow hs _ _) (editorUpdateRow_inv _) _ r hr

lemma RowsInv_delChar {s : EState} (hs : RowsInv s) :
    RowsInv (editorDelChar s) := by
  unfold editorDelChar
  split
  · exact hs
  · split
    · exact hs
    · split
      · exact fun r hr => RowsInv_set hs (editorUpdateRow_inv _) _ r hr
      · exact fun r hr =>
          RowsInv_delRow (fun r hr => RowsInv_set hs (editorUpdateRow_inv _) _ r hr) _ r hr

lemma moveCursorClamp_rows (s : EState) : (moveCursorClamp s).rows = s.rows := by
  unfold moveCursorClamp
  dsimp only
  repeat' split
  all_goals rfl

lemma editorMoveCursor_rows (s : EState) (k : Int) :
    (editorMoveCursor s k).rows = s.rows := by
  unfold editorMoveCursor
  dsimp only
  rw [moveCursorClamp_rows]
  repeat' split
  all_goals rfl

lemma RowsInv_moveCursor {s : EState} (hs : RowsInv s) (k : Int) :
    RowsInv (editorMoveCursor s k) := by
  intro r hr
  rw [editorMoveCursor_rows] at hr
  exact hs r hr

lemma RowsInv_applyOp {s : EState} (hs : RowsInv s) (op : EditOp) :
    RowsInv (applyOp s op) := by
  cases op with
  | insertChar c => exact RowsInv_insertChar hs c
  | insertNewLine => exact RowsInv_insertNewLine hs
  | delChar => exact RowsInv_delChar hs
  | moveCursor k => exact RowsInv_moveCursor hs k

lemma RowsInv_applyOps {s : EState} (hs : RowsInv s) (ops : List EditOp) :
    RowsInv (applyOps s ops) := by
  induction ops generalizing s with
  | nil => exact hs
  | cons op rest ih => exact ih (RowsInv_applyOp hs op)

/-- C1: for every row and every sequence of character inserts/deletes the
render text equals the stored text with each tab expanded to the next
multiple of 8 columns; this is re-established on return from every
row-mutation primitive (insert char, delete char, append string, row
insert) and preserved across every sequence of buffer edit operations, so
render is never observably stale with respect to text. -/
theorem C1_render_tab_expansion :
    (∀ r : Erow, (editorUpdateRow r).render = specExpand (editorUpdateRow r).text)
    ∧ (∀ (r : Erow) (pos : Int) (c : Char),
        (editorRowInsertChar r pos c).render = specExpand (editorRowInsertChar r pos c).text)
    ∧ (∀ (r : Erow) (pos : Int),
        (editorRowDelChar r pos).render = specExpand (editorRowDelChar r pos).text)
    ∧ (∀ (r : Erow) (str : List Char),
        (editorRowAppendString r str).render = specExpand (editorRowAppendString r str).text)
    ∧ (∀ (r : Erow) (ops : List RowOp), ops ≠ [] →
        (applyRowOps r ops).render = specExpand (applyRowOps r ops).text)
    ∧ (∀ (s : EState) (pos : Int) (str : List Char), RowsInv s →
        RowsInv (editorInsertRow s pos str))
    ∧ (∀ (s : EState) (ops : List EditOp), RowsInv s → RowsInv (applyOps s ops)) :=
  ⟨fun r => editorUpdateRow_inv r,
   fun r pos c => editorRowInsertChar_inv r pos c,
   fun r pos => editorRowDelChar_inv r pos,
   fun r str => editorRowAppendString_inv r str,
   fun r ops h => applyRowOps_inv r ops h,
   fun _ pos str hs => RowsInv_insertRow hs pos str,
   fun _ ops hs => RowsInv_applyOps hs ops⟩

/-- Witness for C1 at a concrete row and edit sequence. -/
theorem C1_render_tab_expansion_witness :
    (applyRowOps ⟨['a'], ['a']⟩ [RowOp.ins 1 '\t']).render
      = specExpand (applyRowOps ⟨['a'], ['a']⟩ [RowOp.ins 1 '\t']).text :=
  C1_render_tab_expansion.2.2.2.2.1 ⟨['a'], ['a']⟩ [RowOp.ins 1 '\t'] (by decide)

lemma cxToRxLoop_le (t : List Char) : ∀ (j rx : Nat), rx ≤ cxToRxLoop t j rx := by
  induction t with
  | nil => intro j rx; cases j <;> simp [cxToRxLoop]
  | cons ch rest ih =>
    intro j rx
    cases j with
    | zero => simp [cxToRxLoop]
    | succ j =>
      simp only [cxToRxLoop]
      exact le_trans (Nat.le_add_right _ _) (ih j _)

lemma cxToRxLoop_mono (t : List Char) :
    ∀ (a b r : Nat), a ≤ b → cxToRxLoop t a r ≤ cxToRxLoop t b r := by
  induction t with
  | nil => intro a b r h; cases a <;> cases b <;> simp [cxToRxLoop]
  | cons ch rest ih =>
    intro a b r h
    cases a with
    | zero =>
      have h0 : cxToRxLoop (ch :: rest) 0 r = r := by simp [cxToRxLoop]
      rw [h0]
      exact cxToRxLoop_le _ _ _
    | succ a =>
      cases b with
      | zero => omega
      | succ b =>
        simp only [cxToRxLoop]
        exact ih a b _ (by omega)

lemma stepWidth_pos (ch : Char) (r : Nat) :
    0 < (if ch = '\t' then YETI_TAB_STOP - r % YETI_TAB_STOP else 1) := by
  split
  · have := Nat.mod_lt r (show 0 < YETI_TAB_STOP by decide)
    omega
  · omega

lemma rxToCx_cxToRx_aux (t : List Char) :
    ∀ (cx : Nat), cx ≤ t.length → ∀ (r c0 : Nat),
      rxToCxLoop t (cxToRxLoop t cx r) r c0 = c0 + cx := by
  induction t with
  | nil =>
    intro cx hcx r c0
    have : cx = 0 := by simpa using hcx
    subst this
    simp [cxToRxLoop, rxToCxLoop]
  | cons ch rest ih =>
    intro cx hcx r c0
    cases cx with
    | zero =>
      have hδ := stepWidth_pos ch r
      simp only [cxToRxLoop, rxToCxLoop]
      rw [if_pos (by omega)]
      omega
    | succ k =>
      have hle := cxToRxLoop_le rest k
        (r + (if ch = '\t' then YETI_TAB_STOP - r % YETI_TAB_STOP else 1))
      simp only [cxToRxLoop, rxToCxLoop]
      rw [if_neg (by omega)]
      rw [ih k (by simpa using hcx) _ (c0 + 1)]
      omega

lemma rxToCxLoop_min (t : List Char) :
    ∀ (rx r c0 : Nat),
      c0 ≤ rxToCxLoop t rx r c0
      ∧ rxToCxLoop t rx r c0 ≤ c0 + t.length
      ∧ (rxToCxLoop t rx r c0 < c0 + t.length →
          rx < cxToRxLoop t (rxToCxLoop t rx r c0 - c0 + 1) r)
      ∧ (∀ j, j < rxToCxLoop t rx r c0 - c0 → cxToRxLoop t (j + 1) r ≤ rx) := by
  induction t with
  | nil =>
    intro rx r c0
    refine ⟨le_refl _, by simp [rxToCxLoop], by simp [rxToCxLoop], ?_⟩
    intro j hj
    simp [rxToCxLoop] at hj
  | cons ch rest ih =>
    intro rx r c0
    by_cases hlt : rx < r + (if ch = '\t' then YETI_TAB_STOP - r % YETI_TAB_STOP else 1)
    · have hres : rxToCxLoop (ch :: rest) rx r c0 = c0 := by
        simp only [rxToCxLoop]
        rw [if_pos hlt]
      refine ⟨by omega, by simp [hres], ?_, ?_⟩
      · intro _
        rw [hres]
        have h1 : cxToRxLoop (ch :: rest) (c0 - c0 + 1) r
            = r + (if ch = '\t' then YETI_TAB_STOP - r % YETI_TAB_STOP else 1) := by
          have : c0 - c0 + 1 = 1 := by omega
          rw [this]
          simp [cxToRxLoop]
        rw [h1]
        exact hlt
      · intro j hj
        rw [hres] at hj
        omega
    · have hres : rxToCxLoop (ch :: rest) rx r c0
          = rxToCxLoop rest rx
              (r + (if ch = '\t' then YETI_TAB_STOP - r % YETI_TAB_STOP else 1)) (c0 + 1) := by
        simp only [rxToCxLoop]
        rw [if_neg hlt]
      obtain ⟨ih1, ih2, ih3, ih4⟩ :=
        ih rx (r + (if ch = '\t' then YETI_TAB_STOP - r % YETI_TAB_STOP else 1)) (c0 + 1)
      rw [hres]
      refine ⟨by omega, by simp; omega, ?_, ?_⟩
      · intro hless
        have hless2 : rxToCxLoop rest rx
            (r + (if ch = '\t' then YETI_TAB_STOP - r % YETI_TAB_STOP else 1)) (c0 + 1)
            < c0 + 1 + rest.length := by
          simp at hless
          omega
        have h3 := ih3 hless2
        have heq : rxToCxLoop rest rx
            (r + (if ch = '\t' then YETI_TAB_STOP - r % YETI_TAB_STOP else 1)) (c0 + 1) - c0 + 1
            = (rxToCxLoop rest rx
                (r + (if ch = '\t' then YETI_TAB_STOP - r % YETI_TAB_STOP else 1)) (c0 + 1)
                - (c0 + 1) + 1) + 1 := by
          omega
        rw [heq]
        simp only [cxToRxLoop]
        exact h3
      · intro j hj
        cases j with
        | zero =>
          have h1 : cxToRxLoop (ch :: rest) 1 r
              = r + (if ch = '\t' then YETI_TAB_STOP - r % YETI_TAB_STOP else 1) := by
            simp [cxToRxLoop]
          rw [h1]
          omega
        | succ j =>
          have hj2 : j < rxToCxLoop rest rx
              (r + (if ch = '\t' then YETI_TAB_STOP - r % YETI_TAB_STOP else 1)) (c0 + 1)
              - (c0 + 1) := by omega
          have h4 := ih4 j hj2
          simpa only [cxToRxLoop] using h4

/-- C2: for a character column whose neighboring bytes are not tabs (any
non-tab character position), editorRowCxToRx followed by editorRowRxToCx
round-trips to the original column; more generally editorRowRxToCx returns
the smallest character column whose cumulative render column strictly
exceeds the target rx (so columns inside an expanded tab map back to the
tab's character position), and both mappings are monotonic. -/
theorem C2_column_mapping (row : Erow) (cx : Nat)
    (hcx : cx ≤ row.text.length)
    (h1 : row.text.getD (cx - 1) ' ' ≠ '\t')
    (h2 : row.text.getD cx ' ' ≠ '\t') :
    editorRowRxToCx row (editorRowCxToRx row cx) = cx
    ∧ (∀ rx : Nat,
        editorRowRxToCx row rx ≤ row.text.length
        ∧ (editorRowRxToCx row rx < row.text.length →
            rx < editorRowCxToRx row (editorRowRxToCx row rx + 1))
        ∧ (∀ j, j < editorRowRxToCx row rx → editorRowCxToRx row (j + 1) ≤ rx))
    ∧ (∀ a b : Nat, a ≤ b → editorRowCxToRx row a ≤ editorRowCxToRx row b)
    ∧ (∀ rx rx' : Nat, rx ≤ rx' → editorRowRxToCx row rx ≤ editorRowRxToCx row rx') := by
  refine ⟨?_, ?_, ?_, ?_⟩
  · have h := rxToCx_cxToRx_aux row.text cx hcx 0 0
    simpa [editorRowRxToCx, editorRowCxToRx] using h
  · intro rx
    obtain ⟨m1, m2, m3, m4⟩ := rxToCxLoop_min row.text rx 0 0
    refine ⟨by simpa [editorRowRxToCx] using m2, ?_, ?_⟩
    · intro hlt
      have := m3 (by simpa [editorRowRxToCx] using hlt)
      simpa [editorRowRxToCx, editorRowCxToRx] using this
    · intro j hj
      have := m4 j (by simpa [editorRowRxToCx] using hj)
      simpa [editorRowRxToCx, editorRowCxToRx] using this
  · intro a b hab
    exact cxToRxLoop_mono row.text a b 0 hab
  · intro rx rx' hle
    by_contra hcon
    push_neg at hcon
    obtain ⟨m1, m2, m3, m4⟩ := rxToCxLoop_min row.text rx 0 0
    obtain ⟨n1, n2, n3, n4⟩ := rxToCxLoop_min row.text rx' 0 0
    have hlt : rxToCxLoop row.text rx' 0 0 < rxToCxLoop row.text rx 0 0 := by
      simpa [editorRowRxToCx] using hcon
    have hlen : rxToCxLoop row.text rx' 0 0 < 0 + row.text.length := by omega
    have h3 := n3 hlen
    have h4 := m4 (rxToCxLoop row.text rx' 0 0) (by omega)
    simp only [Nat.sub_zero] at h3
    omega

/-- Witness for C2 at row text "ab" with cx = 1. -/
theorem C2_column_mapping_witness :
    editorRowRxToCx ⟨['a', 'b'], ['a', 'b']⟩ (editorRowCxToRx ⟨['a', 'b'], ['a', 'b']⟩ 1) = 1 :=
  (C2_column_mapping ⟨['a', 'b'], ['a', 'b']⟩ 1 (by decide) (by decide) (by decide)).1

lemma editorScroll_rows (s : EState) : (editorScroll s).rows = s.rows := rfl

lemma editorDrawRowsLineno_rows (s : EState) : (editorDrawRowsLineno s).rows = s.rows := by
  unfold editorDrawRowsLineno
  split <;> rfl

lemma editorCursorFixup_rows (s : EState) : (editorCursorFixup s).rows = s.rows := by
  unfold editorCursorFixup
  split <;> rfl

lemma editorRefreshScreenState_rows (s : EState) :
    (editorRefreshScreenState s).rows = s.rows := by
  unfold editorRefreshScreenState
  rw [editorCursorFixup_rows, editorDrawRowsLineno_rows, editorScroll_rows]

lemma getD_zero_dropLast (l : List EState) (h : l.length ≠ 1) :
    l.dropLast.getD 0 default = l.getD 0 default := by
  match l with
  | [] => rfl
  | [a] => exact absurd rfl h
  | a :: b :: t => rfl

/-- Concrete editor state used by witnesses and counterexamples. -/
def sampleState : EState :=
  { linenooff := 2, modified := 0, filename := some "f.txt", cx := 2, cy := 0, rx := 2,
    rowoff := 0, coloff := 0, screenrows := 20, screencols := 80,
    rows := [mkRow ['a']], statusmsg := "" }

/-- C3 counterexample: with the current index already 0 but unsaved
modifications present (modified not 0), editorUndoState is not a no-op: it
replaces the live buffer with snapshot 0 and does not report the
matches-disk message, contradicting the claim that undo at index 0 does
nothing regardless of whether unsaved modifications exist. -/
theorem C3_undo_counterexample :
    (editorUndoState ⟨[sampleState], 0⟩
        { sampleState with rows := [mkRow ['a', 'b', 'c']], modified := 2 }).2.rows
      ≠ ({ sampleState with rows := [mkRow ['a', 'b', 'c']], modified := 2 } : EState).rows
    ∧ (editorUndoState ⟨[sampleState], 0⟩
        { sampleState with rows := [mkRow ['a', 'b', 'c']], modified := 2 }).2.statusmsg
      ≠ matchesDiskMsg := by
  have h1 : (editorUndoState ⟨[sampleState], 0⟩
      { sampleState with rows := [mkRow ['a', 'b', 'c']], modified := 2 }).2.rows
      = [mkRow ['a']] := rfl
  have h2 : (editorUndoState ⟨[sampleState], 0⟩
      { sampleState with rows := [mkRow ['a', 'b', 'c']], modified := 2 }).2.statusmsg
      = undoSuccessMsg := rfl
  have h3 : ({ sampleState with rows := [mkRow ['a', 'b', 'c']], modified := 2 } : EState).rows
      = [mkRow ['a', 'b', 'c']] := rfl
  rw [h1, h2, h3]
  constructor
  · decide
  · decide

/-- C3 (amended): repeated undo converges to current index 0 (each call maps
the index to max(index-1, 0)); when the index is already 0 and the live
modified counter is 0, undo is a no-op on the stack and on the state apart
from setting the matches-disk message; but when the index is 0 with
unsaved modifications, undo instead replaces the live buffer with a deep
copy of snapshot 0. -/
theorem C3_undo_amended (ur : UndoRedo) (st : EState) (h : 0 ≤ ur.currStateIndex) :
    (editorUndoState ur st).1.currStateIndex = max (ur.currStateIndex - 1) 0
    ∧ (ur.currStateIndex = 0 ∧ st.modified = 0 →
        (editorUndoState ur st).1 = ur
        ∧ (editorUndoState ur st).2 = { st with statusmsg := matchesDiskMsg })
    ∧ (ur.currStateIndex = 0 ∧ st.modified ≠ 0 →
        (editorUndoState ur st).2.rows = (ur.states.getD 0 default).rows) := by
  refine ⟨?_, ?_, ?_⟩
  · unfold editorUndoState
    dsimp only
    split_ifs with h1 h2 <;> try dsimp only <;> omega
  · rintro ⟨hidx, hmod⟩
    have hng : ¬(ur.currStateIndex > 0) := by omega
    unfold editorUndoState
    dsimp only
    rw [if_neg hng,
        if_pos (Or.inr ⟨hidx, hmod⟩ :
          ur.currStateIndex < 0 ∨ (ur.currStateIndex = 0 ∧ st.modified = 0))]
    refine ⟨?_, rfl⟩
    obtain ⟨sts, ci⟩ := ur
    dsimp only at hidx ⊢
    rw [hidx]
  · rintro ⟨hidx, hmod⟩
    have hng : ¬(ur.currStateIndex > 0) := by omega
    have hcond : ¬(ur.currStateIndex < 0 ∨ (ur.currStateIndex = 0 ∧ st.modified = 0)) := by
      rintro (hc | hc)
      · omega
      · exact hmod hc.2
    unfold editorUndoState
    dsimp only
    rw [if_neg hng, if_neg hcond]
    dsimp only
    rw [editorRefreshScreenState_rows]
    dsimp only
    rw [hidx]
    split_ifs with hlen
    · rw [show ((0 : Int).toNat = 0) from rfl, getD_zero_dropLast _ hlen]
    · rfl

/-- Witness for C3 (amended) at a concrete stack and state. -/
theorem C3_undo_amended_witness :
    (editorUndoState ⟨[sampleState], 0⟩ sampleState).1.currStateIndex = max (0 - 1) 0
    ∧ (editorUndoState ⟨[sampleState], 0⟩ sampleState).1 = ⟨[sampleState], 0⟩
    ∧ (editorUndoState ⟨[sampleState], 0⟩ sampleState).2
        = { sampleState with statusmsg := matchesDiskMsg } :=
  have h := C3_undo_amended ⟨[sampleState], 0⟩ sampleState (by decide)
  ⟨h.1, (h.2.1 ⟨rfl, rfl⟩).1, (h.2.1 ⟨rfl, rfl⟩).2⟩

/-- C4: immediately after every successful save the undo stack holds exactly
one snapshot, which is the just-saved state, with the current index
pointing at it (index 0), so no pre-save history survives; and an undo
invoked immediately after the save performs no content change, only
reporting the matches-disk message. -/
theorem C4_save_single_snapshot (st : EState) (ur : UndoRedo) (pn : Option String)
    (hf : st.filename ≠ none ∨ pn ≠ none) :
    (editorSave st ur pn SaveOutcome.ok).2.states = [(editorSave st ur pn SaveOutcome.ok).1]
    ∧ (editorSave st ur pn SaveOutcome.ok).2.currStateIndex = 0
    ∧ editorUndoState (editorSave st ur pn SaveOutcome.ok).2 (editorSave st ur pn SaveOutcome.ok).1
        = ((editorSave st ur pn SaveOutcome.ok).2,
           { (editorSave st ur pn SaveOutcome.ok).1 with statusmsg := matchesDiskMsg }) := by
  have hbody : ∀ st2 : EState,
      (editorSaveBody st2 ur SaveOutcome.ok).2.states = [(editorSaveBody st2 ur SaveOutcome.ok).1]
      ∧ (editorSaveBody st2 ur SaveOutcome.ok).2.currStateIndex = 0
      ∧ editorUndoState (editorSaveBody st2 ur SaveOutcome.ok).2
          (editorSaveBody st2 ur SaveOutcome.ok).1
          = ((editorSaveBody st2 ur SaveOutcome.ok).2,
             { (editorSaveBody st2 ur SaveOutcome.ok).1 with statusmsg := matchesDiskMsg }) := by
    intro st2
    refine ⟨rfl, rfl, ?_⟩
    simp only [editorSaveBody, editorAddState, editorUndoState, List.nil_append,
      List.length_cons, List.length_nil, Nat.cast_zero, Nat.cast_one]
    norm_num
  unfold editorSave
  cases hfn : st.filename with
  | some nm => exact hbody st
  | none =>
    cases hpn : pn with
    | none =>
      rcases hf with hf | hf
      · exact absurd hfn hf
      · exact absurd hpn hf
    | some nm => exact hbody _

/-- Witness for C4 at a concrete state and stack. -/
theorem C4_save_single_snapshot_witness :
    (editorSave sampleState ⟨[sampleState, sampleState], 1⟩ none SaveOutcome.ok).2.states
      = [(editorSave sampleState ⟨[sampleState, sampleState], 1⟩ none SaveOutcome.ok).1]
    ∧ (editorSave sampleState ⟨[sampleState, sampleState], 1⟩ none SaveOutcome.ok).2.currStateIndex
      = 0 :=
  have h := C4_save_single_snapshot sampleState ⟨[sampleState, sampleState], 1⟩ none
    (Or.inl (by decide))
  ⟨h.1, h.2.1⟩

/-- C5: a save that fails with an I/O error (open, truncate or write failure)
reports only through the transient status message: the buffer rows and the
modified counter are exactly as before the attempt, the undo stack is
untouched, and the function returns a state rather than exiting, so the
editor keeps running. -/
theorem C5_save_failure_atomic (st : EState) (ur : UndoRedo) (pn : Option String)
    (io : SaveOutcome) (hio : io ≠ SaveOutcome.ok) :
    (editorSave st ur pn io).1.rows = st.rows
    ∧ (editorSave st ur pn io).1.modified = st.modified
    ∧ (editorSave st ur pn io).2 = ur
    ∧ (st.filename ≠ none → (editorSave st ur pn io).1.statusmsg = saveErrorMsg) := by
  unfold editorSave editorSaveBody
  cases hfn : st.filename with
  | some nm =>
    cases io with
    | ok => exact absurd rfl hio
    | openFail => exact ⟨rfl, rfl, rfl, fun _ => rfl⟩
    | truncateFail => exact ⟨rfl, rfl, rfl, fun _ => rfl⟩
    | writeFail => exact ⟨rfl, rfl, rfl, fun _ => rfl⟩
  | none =>
    cases pn with
    | none => exact ⟨rfl, rfl, rfl, fun hc => absurd rfl hc⟩
    | some nm =>
      cases io with
      | ok => exact absurd rfl hio
      | openFail => exact ⟨rfl, rfl, rfl, fun _ => rfl⟩
      | truncateFail => exact ⟨rfl, rfl, rfl, fun _ => rfl⟩
      | writeFail => exact ⟨rfl, rfl, rfl, fun _ => rfl⟩

/-- Witness for C5 at a concrete state, stack and failing write. -/
theorem C5_save_failure_atomic_witness :
    (editorSave sampleState ⟨[sampleState], 0⟩ none SaveOutcome.writeFail).1.rows
      = sampleState.rows
    ∧ (editorSave sampleState ⟨[sampleState], 0⟩ none SaveOutcome.writeFail).1.modified
      = sampleState.modified
    ∧ (editorSave sampleState ⟨[sampleState], 0⟩ none SaveOutcome.writeFail).2
      = ⟨[sampleState], 0⟩
    ∧ (editorSave sampleState ⟨[sampleState], 0⟩ none SaveOutcome.writeFail).1.statusmsg
      = saveErrorMsg :=
  have h := C5_save_failure_atomic sampleState ⟨[sampleState], 0⟩ none SaveOutcome.writeFail
    (by decide)
  ⟨h.1, h.2.1, h.2.2.1, h.2.2.2 (by decide)⟩

/-- Cursor well-formedness maintained by the edit operations: nonnegative
gutter width, cursor at or right of the gutter, and the cursor row inside
the buffer (which therefore is nonempty). -/
def CursorInv (s : EState) : Prop :=
  0 ≤ s.linenooff ∧ s.linenooff ≤ s.cx ∧ 0 ≤ s.cy ∧ s.cy < (s.rows.length : Int)

instance (s : EState) : Decidable (CursorInv s) := by
  unfold CursorInv; infer_instance

lemma CursorInv_insertChar {s : EState} (h : CursorInv s) (c : Char) :
    CursorInv (editorInsertChar s c) := by
  obtain ⟨h1, h2, h3, h4⟩ := h
  unfold editorInsertChar
  dsimp only
  rw [if_neg (by omega)]
  refine ⟨h1, ?_, h3, ?_⟩ <;> try dsimp only
  · omega
  · simpa [List.length_set] using h4

lemma CursorInv_insertNewLine {s : EState} (h : CursorInv s) :
    CursorInv (editorInsertNewLine s) := by
  obtain ⟨h1, h2, h3, h4⟩ := h
  unfold editorInsertNewLine editorInsertRow
  dsimp only
  split_ifs with hcx
  · refine ⟨h1, le_refl _, ?_, ?_⟩ <;> try dsimp only
    · omega
    · simp only [List.length_append, List.length_take, List.length_cons, List.length_drop]
      push_cast
      omega
  · refine ⟨h1, le_refl _, ?_, ?_⟩ <;> try dsimp only
    · omega
    · simp only [List.length_set, List.length_append, List.length_take, List.length_cons,
        List.length_drop]
      push_cast
      omega

lemma CursorInv_delChar {s : EState} (h : CursorInv s) :
    CursorInv (editorDelChar s) := by
  obtain ⟨h1, h2, h3, h4⟩ := h
  unfold editorDelChar
  dsimp only
  split_ifs with hvl hstart hgt
  · exact ⟨h1, h2, h3, h4⟩
  · exact ⟨h1, h2, h3, h4⟩
  · refine ⟨h1, ?_, h3, ?_⟩ <;> try dsimp only
    · omega
    · simpa [List.length_set] using h4
  · have hcyge : 1 ≤ s.cy := by
      rcases Decidable.em (s.cy = 0) with hz | hz
      · exact absurd ⟨by omega, hz⟩ hstart
      · omega
    unfold editorDelRow
    dsimp only
    rw [if_neg (by simp only [List.length_set]; omega)]
    refine ⟨?_, ?_, ?_, ?_⟩ <;> try dsimp only
    · omega
    · omega
    · omega
    · simp only [List.length_append, List.length_take, List.length_drop, List.length_set]
      push_cast
      omega

lemma CursorInv_clamp {s : EState} (h : CursorInv s) : CursorInv (moveCursorClamp s) := by
  obtain ⟨h1, h2, h3, h4⟩ := h
  unfold moveCursorClamp
  dsimp only
  rw [if_pos h4]
  dsimp only
  split_ifs with hgt
  · refine ⟨h1, ?_, h3, h4⟩
    dsimp only
    omega
  · exact ⟨h1, h2, h3, h4⟩

lemma CursorInv_moveCursor {s : EState} (h : CursorInv s) (key : Int) :
    CursorInv (editorMoveCursor s key) := by
  obtain ⟨h1, h2, h3, h4⟩ := h
  unfold editorMoveCursor
  dsimp only
  apply CursorInv_clamp
  by_cases hk1 : key = ARROW_LEFT
  · rw [if_pos hk1]
    split_ifs with hc1 hc2
    · refine ⟨h1, ?_, ?_, ?_⟩ <;> try dsimp only <;> omega
    · refine ⟨h1, ?_, h3, h4⟩
      dsimp only
      omega
    · exact ⟨h1, h2, h3, h4⟩
  · rw [if_neg hk1]
    by_cases hk2 : key = ARROW_RIGHT
    · rw [if_pos hk2, if_neg (show ¬(s.cy ≥ (s.rows.length : Int)) by omega)]
      dsimp only
      split_ifs with hc1 hc2
      · refine ⟨h1, le_refl _, ?_, ?_⟩ <;> try dsimp only <;> omega
      · refine ⟨h1, ?_, h3, h4⟩
        dsimp only
        omega
      · exact ⟨h1, h2, h3, h4⟩
    · rw [if_neg hk2]
      by_cases hk3 : key = ARROW_UP
      · rw [if_pos hk3]
        split_ifs with hc1
        · refine ⟨h1, h2, ?_, ?_⟩ <;> try dsimp only <;> omega
        · exact ⟨h1, h2, h3, h4⟩
      · rw [if_neg hk3]
        by_cases hk4 : key = ARROW_DOWN
        · rw [if_pos hk4]
          split_ifs with hc1
          · refine ⟨h1, h2, ?_, ?_⟩ <;> try dsimp only <;> omega
          · exact ⟨h1, h2, h3, h4⟩
        · rw [if_neg hk4]
          exact ⟨h1, h2, h3, h4⟩

lemma CursorInv_applyOp {s : EState} (h : CursorInv s) (op : EditOp) :
    CursorInv (applyOp s op) := by
  cases op with
  | insertChar c => exact CursorInv_insertChar h c
  | insertNewLine => exact CursorInv_insertNewLine h
  | delChar => exact CursorInv_delChar h
  | moveCursor k => exact CursorInv_moveCursor h k

lemma CursorInv_applyOps {s : EState} (h : CursorInv s) (ops : List EditOp) :
    CursorInv (applyOps s ops) := by
  induction ops generalizing s with
  | nil => exact h
  | cons op rest ih => exact ih (CursorInv_applyOp h op)

/-- C6: from any cursor-well-formed state (as established at initialization),
every sequence of edit operations leaves at least one row in the buffer
and preserves cursor well-formedness; in particular deleting the only
character of the only row leaves exactly one row, which is empty. -/
theorem C6_line_count_positive (s : EState) (ops : List EditOp) (h : CursorInv s) :
    1 ≤ (applyOps s ops).rows.length
    ∧ CursorInv (applyOps s ops)
    ∧ (editorDelChar { sampleState with cx := 3 }).rows.length = 1
    ∧ ((editorDelChar { sampleState with cx := 3 }).rows.getD 0 default).text = [] := by
  have hinv := CursorInv_applyOps h ops
  obtain ⟨g1, g2, g3, g4⟩ := hinv
  exact ⟨by omega, ⟨g1, g2, g3, g4⟩, rfl, rfl⟩

/-- Witness for C6 at a concrete state and a concrete edit sequence. -/
theorem C6_line_count_positive_witness :
    1 ≤ (applyOps sampleState
      [EditOp.insertChar 'b', EditOp.delChar, EditOp.delChar]).rows.length :=
  (C6_line_count_positive sampleState [EditOp.insertChar 'b', EditOp.delChar, EditOp.delChar]
    (by decide)).1

/-- C10: with the cursor on the virtual line one past the last text row,
editorDelChar returns at its first guard: the buffer, cursor, row count
and modified counter are all unchanged. -/
theorem C10_delchar_virtual_line_noop (s : EState) (h : s.cy = (s.rows.length : Int)) :
    editorDelChar s = s := by
  unfold editorDelChar
  rw [if_pos h]

/-- Witness for C10 on a concrete one-row state with the cursor on row 1. -/
theorem C10_delchar_virtual_line_noop_witness :
    editorDelChar { sampleState with cy := 1 } = { sampleState with cy := 1 } :=
  C10_delchar_virtual_line_noop { sampleState with cy := 1 } (by decide)

/-- Nine-row buffer whose current row starts with a tab; the cursor sits at
the row start (cx equal to the gutter width 2), exactly as the editor
leaves it after a refresh.  Reachable by opening a nine-line file whose
first line is a tab followed by x. -/
def gutterBugState : EState :=
  { linenooff := 2, modified := 0, filename := some "f.txt", cx := 2, cy := 0, rx := 2,
    rowoff := 0, coloff := 0, screenrows := 20, screencols := 80,
    rows := mkRow ['\t', 'x'] :: List.replicate 8 (mkRow ['a']), statusmsg := "" }

/-- C9 (code bug): pressing Enter at the start of the tab-initial row grows
the buffer from 9 to 10 rows, so the next refresh widens the gutter to 3;
but the cursor fixup at the end of editorRefreshScreen fires only when rx
is also inside the gutter, and the tab pushes rx to 9, so cx stays 2 —
strictly inside the widened gutter, violating gutterWidth le cx even
though the starting state is cursor-well-formed.  The fixup in the C shows
the cursor is never meant to sit inside the gutter. -/
theorem C9_cursor_in_gutter_bug :
    (editorRefreshScreenState (editorInsertNewLine gutterBugState)).cx
      < (editorRefreshScreenState (editorInsertNewLine gutterBugState)).linenooff
    ∧ (editorRefreshScreenState (editorInsertNewLine gutterBugState)).cx = 2
    ∧ (editorRefreshScreenState (editorInsertNewLine gutterBugState)).linenooff = 3
    ∧ (editorRefreshScreenState (editorInsertNewLine gutterBugState)).rows.length = 10
    ∧ CursorInv gutterBugState := by
  have hcx : (editorRefreshScreenState (editorInsertNewLine gutterBugState)).cx = 2 := rfl
  have hlo : (editorRefreshScreenState (editorInsertNewLine gutterBugState)).linenooff = 3 := rfl
  have hlen : (editorRefreshScreenState (editorInsertNewLine gutterBugState)).rows.length
      = 10 := rfl
  exact ⟨by rw [hcx, hlo]; decide, hcx, hlo, hlen, by decide⟩

lemma readKey_not_escape (c : Int) (reads : List (Option Int)) (h : c ≠ 27) :
    editorReadKey c reads = c := by
  unfold editorReadKey
  rw [if_neg h]

lemma readKey_timeout_first (rest : List (Option Int)) :
    editorReadKey 27 (none :: rest) = 27 := rfl

lemma readKey_timeout_empty : editorReadKey 27 [] = 27 := rfl

lemma readKey_timeout_second (x : Int) (rest : List (Option Int)) :
    editorReadKey 27 (some x :: none :: rest) = 27 := rfl

lemma readKey_timeout_third (s1 : Int) (h1 : 48 ≤ s1) (h2 : s1 ≤ 57) :
    editorReadKey 27 [some 91, some s1] = 27 := by
  show (if 48 ≤ s1 ∧ s1 ≤ 57 then (27 : Int) else _) = 27
  rw [if_pos ⟨h1, h2⟩]

lemma readKey_unknown_intro (s0 s1 : Int) (rest : List (Option Int))
    (h91 : s0 ≠ 91) (h79 : s0 ≠ 79) :
    editorReadKey 27 (some s0 :: some s1 :: rest) = 27 := by
  show (if s0 = 91 then _ else if s0 = 79 then _ else (27 : Int)) = 27
  rw [if_neg h91, if_neg h79]

lemma readKey_digit_no_tilde (s1 s2 : Int) (rest : List (Option Int))
    (h1 : 48 ≤ s1) (h2 : s1 ≤ 57) (hs2 : s2 ≠ 126) :
    editorReadKey 27 (some 91 :: some s1 :: some s2 :: rest) = 27 := by
  show (if 48 ≤ s1 ∧ s1 ≤ 57 then (if s2 = 126 then _ else (27 : Int)) else _) = 27
  rw [if_pos ⟨h1, h2⟩, if_neg hs2]

lemma readKey_digit_unmapped (s1 s2 : Int) (rest : List (Option Int))
    (h1 : 48 ≤ s1) (h2 : s1 ≤ 57)
    (n1 : s1 ≠ 49) (n3 : s1 ≠ 51) (n4 : s1 ≠ 52) (n5 : s1 ≠ 53) (n6 : s1 ≠ 54)
    (n7 : s1 ≠ 55) (n8 : s1 ≠ 56) :
    editorReadKey 27 (some 91 :: some s1 :: some s2 :: rest) = 27 := by
  show (if 48 ≤ s1 ∧ s1 ≤ 57 then (if s2 = 126 then _ else (27 : Int)) else _) = 27
  rw [if_pos ⟨h1, h2⟩]
  by_cases h126 : s2 = 126
  · rw [if_pos h126, if_neg n1, if_neg n3, if_neg n4, if_neg n5, if_neg n6, if_neg n7,
        if_neg n8]
  · rw [if_neg h126]

lemma readKey_letter_unmapped (s1 : Int) (rest : List (Option Int))
    (hd : ¬(48 ≤ s1 ∧ s1 ≤ 57))
    (nA : s1 ≠ 65) (nB : s1 ≠ 66) (nC : s1 ≠ 67) (nD : s1 ≠ 68)
    (nH : s1 ≠ 72) (nF : s1 ≠ 70) :
    editorReadKey 27 (some 91 :: some s1 :: rest) = 27 := by
  show (if 48 ≤ s1 ∧ s1 ≤ 57 then _
        else if s1 = 65 then ARROW_UP
        else if s1 = 66 then ARROW_DOWN
        else if s1 = 67 then ARROW_RIGHT
        else if s1 = 68 then ARROW_LEFT
        else if s1 = 72 then HOME_KEY
        else if s1 = 70 then END_KEY
        else (27 : Int)) = 27
  rw [if_neg hd, if_neg nA, if_neg nB, if_neg nC, if_neg nD, if_neg nH, if_neg nF]

lemma readKey_escO_unmapped (s1 : Int) (rest : List (Option Int))
    (nH : s1 ≠ 72) (nF : s1 ≠ 70) :
    editorReadKey 27 (some 79 :: some s1 :: rest) = 27 := by
  show (if s1 = 72 then HOME_KEY else if s1 = 70 then END_KEY else (27 : Int)) = 27
  rw [if_neg nH, if_neg nF]

/-- C8: the key decoder resolves ESC [ digit ~ sequences by digit value
(1 Home, 3 Delete, 4 End, 5 PageUp, 6 PageDown, 7 Home, 8 End), ESC [
letter to the arrows and Home/End (A/B/C/D/H/F), and ESC O letter to
Home/End (H/F); every other escape sequence, and an escape followed by a
read timeout at any position, yields the bare escape 27; and every
non-escape byte is returned as itself. -/
theorem C8_key_decoder :
    (editorReadKey 27 [some 91, some 49, some 126] = HOME_KEY
      ∧ editorReadKey 27 [some 91, some 51, some 126] = DEL_KEY
      ∧ editorReadKey 27 [some 91, some 52, some 126] = END_KEY
      ∧ editorReadKey 27 [some 91, some 53, some 126] = PAGE_UP
      ∧ editorReadKey 27 [some 91, some 54, some 126] = PAGE_DOWN
      ∧ editorReadKey 27 [some 91, some 55, some 126] = HOME_KEY
      ∧ editorReadKey 27 [some 91, some 56, some 126] = END_KEY)
    ∧ (editorReadKey 27 [some 91, some 65] = ARROW_UP
      ∧ editorReadKey 27 [some 91, some 66] = ARROW_DOWN
      ∧ editorReadKey 27 [some 91, some 67] = ARROW_RIGHT
      ∧ editorReadKey 27 [some 91, some 68] = ARROW_LEFT
      ∧ editorReadKey 27 [some 91, some 72] = HOME_KEY
      ∧ editorReadKey 27 [some 91, some 70] = END_KEY)
    ∧ (editorReadKey 27 [some 79, some 72] = HOME_KEY
      ∧ editorReadKey 27 [some 79, some 70] = END_KEY)
    ∧ (∀ (c : Int) (reads : List (Option Int)), c ≠ 27 → editorReadKey c reads = c)
    ∧ (editorReadKey 27 [] = 27
      ∧ (∀ rest : List (Option Int), editorReadKey 27 (none :: rest) = 27)
      ∧ (∀ (x : Int) (rest : List (Option Int)),
          editorReadKey 27 (some x :: none :: rest) = 27)
      ∧ (∀ s1 : Int, 48 ≤ s1 → s1 ≤ 57 → editorReadKey 27 [some 91, some s1] = 27))
    ∧ (∀ (s0 s1 : Int) (rest : List (Option Int)), s0 ≠ 91 → s0 ≠ 79 →
        editorReadKey 27 (some s0 :: some s1 :: rest) = 27)
    ∧ (∀ (s1 s2 : Int) (rest : List (Option Int)), 48 ≤ s1 → s1 ≤ 57 → s2 ≠ 126 →
        editorReadKey 27 (some 91 :: some s1 :: some s2 :: rest) = 27)
    ∧ (∀ (s1 s2 : Int) (rest : List (Option Int)), 48 ≤ s1 → s1 ≤ 57 →
        s1 ≠ 49 → s1 ≠ 51 → s1 ≠ 52 → s1 ≠ 53 → s1 ≠ 54 → s1 ≠ 55 → s1 ≠ 56 →
        editorReadKey 27 (some 91 :: some s1 :: some s2 :: rest) = 27)
    ∧ (∀ (s1 : Int) (rest : List (Option Int)), ¬(48 ≤ s1 ∧ s1 ≤ 57) →
        s1 ≠ 65 → s1 ≠ 66 → s1 ≠ 67 → s1 ≠ 68 → s1 ≠ 72 → s1 ≠ 70 →
        editorReadKey 27 (some 91 :: some s1 :: rest) = 27)
    ∧ (∀ (s1 : Int) (rest : List (Option Int)), s1 ≠ 72 → s1 ≠ 70 →
        editorReadKey 27 (some 79 :: some s1 :: rest) = 27) :=
  ⟨⟨rfl, rfl, rfl, rfl, rfl, rfl, rfl⟩,
   ⟨rfl, rfl, rfl, rfl, rfl, rfl⟩,
   ⟨rfl, rfl⟩,
   fun c reads h => readKey_not_escape c reads h,
   ⟨readKey_timeout_empty, readKey_timeout_first, readKey_timeout_second,
    fun s1 h1 h2 => readKey_timeout_third s1 h1 h2⟩,
   fun s0 s1 rest h91 h79 => readKey_unknown_intro s0 s1 rest h91 h79,
   fun s1 s2 rest h1 h2 hs2 => readKey_digit_no_tilde s1 s2 rest h1 h2 hs2,
   fun s1 s2 rest h1 h2 n1 n3 n4 n5 n6 n7 n8 =>
     readKey_digit_unmapped s1 s2 rest h1 h2 n1 n3 n4 n5 n6 n7 n8,
   fun s1 rest hd nA nB nC nD nH nF =>
     readKey_letter_unmapped s1 rest hd nA nB nC nD nH nF,
   fun s1 rest nH nF => readKey_escO_unmapped s1 rest nH nF⟩

/-- Witness for C8: a non-escape byte comes back unchanged and an unmapped
digit sequence degrades to a bare escape. -/
theorem C8_key_decoder_witness :
    editorReadKey 97 [] = 97
    ∧ editorReadKey 27 (some 91 :: some 50 :: some 126 :: []) = 27 :=
  ⟨C8_key_decoder.2.2.2.1 97 [] (by decide),
   C8_key_decoder.2.2.2.2.2.2.2.1 50 126 [] (by decide) (by decide) (by decide) (by decide)
     (by decide) (by decide) (by decide) (by decide) (by decide)⟩

lemma wrapIdx_eq_emod (n : Nat) (hn : 0 < n) (cur d : Int)
    (h1 : -1 ≤ cur) (h2 : cur < (n : Int)) (hd : d = 1 ∨ (d = -1 ∧ 0 ≤ cur)) :
    wrapIdx n (cur + d) = (cur + d) % (n : Int) := by
  rcases hd with hd | hd
  · subst hd
    unfold wrapIdx
    rcases Decidable.em (cur + 1 = (n : Int)) with he | he
    · rw [if_neg (by omega), if_pos he, he, Int.emod_self]
    · rw [if_neg (by omega), if_neg he, Int.emod_eq_of_lt (by omega) (by omega)]
  · obtain ⟨hd, hcur⟩ := hd
    subst hd
    unfold wrapIdx
    rcases Decidable.em (cur + -1 = -1) with he | he
    · have hm : ((n : Int) - 1) % (n : Int) = (-1 : Int) % (n : Int) := by
        rw [show ((n : Int) - 1) = -1 + (n : Int) * 1 by ring]
        exact Int.add_mul_emod_self_left (-1) ((n : Int)) 1
      rw [if_pos he, he, ← hm, Int.emod_eq_of_lt (by omega) (by omega)]
    · rw [if_neg he, if_neg (by omega), Int.emod_eq_of_lt (by omega) (by omega)]

lemma emod_bounds (n : Nat) (hn : 0 < n) (a : Int) :
    0 ≤ a % (n : Int) ∧ a % (n : Int) < (n : Int) :=
  ⟨Int.emod_nonneg a (by omega), Int.emod_lt_of_pos a (by omega)⟩

lemma scanList_eq_map (n : Nat) (hn : 0 < n) (d : Int) :
    ∀ (fuel : Nat) (cur : Int), -1 ≤ cur → cur < (n : Int) →
      (d = 1 ∨ (d = -1 ∧ 0 ≤ cur)) →
      scanList n d cur fuel
        = (List.range fuel).map
            (fun (k : Nat) => (cur + d * ((k : Int) + 1)) % (n : Int)) := by
  intro fuel
  induction fuel with
  | zero => intro cur _ _ _; rfl
  | succ f ih =>
    intro cur h1 h2 hd
    have hw := wrapIdx_eq_emod n hn cur d h1 h2 hd
    obtain ⟨hb1, hb2⟩ := emod_bounds n hn (cur + d)
    have hdnext : d = 1 ∨ (d = -1 ∧ 0 ≤ wrapIdx n (cur + d)) := by
      rcases hd with hd | hd
      · exact Or.inl hd
      · exact Or.inr ⟨hd.1, by rw [hw]; exact hb1⟩
    have htail := ih (wrapIdx n (cur + d)) (by rw [hw]; omega) (by rw [hw]; omega) hdnext
    simp only [scanList]
    rw [htail, List.range_succ_eq_map, List.map_cons, List.map_map]
    congr 1
    · rw [hw]
      congr 1
      push_cast
      ring
    · apply List.map_congr_left
      intro k _
      simp only [Function.comp_apply]
      rw [hw, Int.emod_add_emod]
      congr 1
      push_cast
      ring

lemma scanList_nodup (n : Nat) (hn : 0 < n) (d cur : Int)
    (h1 : -1 ≤ cur) (h2 : cur < (n : Int)) (hd : d = 1 ∨ (d = -1 ∧ 0 ≤ cur)) :
    (scanList n d cur n).Nodup := by
  rw [scanList_eq_map n hn d n cur h1 h2 hd]
  refine (List.nodup_range n).map_on ?_
  intro x hx y hy hxy
  rw [List.mem_range] at hx hy
  have hmodeq : ((n : Int)) ∣ ((cur + d * ((y : Int) + 1)) - (cur + d * ((x : Int) + 1))) := by
    exact Int.ModEq.dvd hxy
  have hdvd : ((n : Int)) ∣ d * ((y : Int) - (x : Int)) := by
    have heq : (cur + d * ((y : Int) + 1)) - (cur + d * ((x : Int) + 1))
        = d * ((y : Int) - (x : Int)) := by ring
    rwa [heq] at hmodeq
  have hdvd2 : ((n : Int)) ∣ ((y : Int) - (x : Int)) := by
    rcases hd with hdd | hdd
    · rwa [hdd, one_mul] at hdvd
    · rw [hdd.1] at hdvd
      have : ((n : Int)) ∣ -(((y : Int) - (x : Int))) := by
        rwa [show (-1 : Int) * ((y : Int) - (x : Int)) = -(((y : Int) - (x : Int))) by ring]
          at hdvd
      exact (dvd_neg).mp this
  obtain ⟨t, ht⟩ := hdvd2
  have ht0 : t = 0 := by
    by_contra hne
    rcases lt_or_gt_of_ne hne with hlt | hgt
    · have hle : t ≤ -1 := by omega
      have : (n : Int) * t ≤ (n : Int) * (-1) :=
        mul_le_mul_of_nonneg_left hle (by omega)
      omega
    · have hge : 1 ≤ t := by omega
      have : (n : Int) * 1 ≤ (n : Int) * t :=
        mul_le_mul_of_nonneg_left hge (by omega)
      omega
  rw [ht0, mul_zero] at ht
  omega

lemma findLoop_eq_firstHit (query : List Char) (s : EState) (d : Int) :
    ∀ (fuel : Nat) (cur : Int),
      findLoop query s d cur fuel = firstHit query s (scanList s.rows.length d cur fuel) := by
  intro fuel
  induction fuel with
  | zero => intro cur; rfl
  | succ f ih =>
    intro cur
    simp only [findLoop, scanList, firstHit]
    cases hm : strstrPos query
        ((s.rows.getD (wrapIdx s.rows.length (cur + d)).toNat default).render) with
    | none => exact ih _
    | some pos => rfl

lemma findLoop_some (query : List Char) (s : EState) (d : Int) :
    ∀ (fuel : Nat) (cur c : Int) (s2 : EState),
      findLoop query s d cur fuel = some (c, s2) →
      (strstrPos query ((s.rows.getD c.toNat default).render)).isSome
      ∧ s2.cy = c
      ∧ (∀ pos, strstrPos query ((s.rows.getD c.toNat default).render) = some pos →
          s2.cx = (editorRowRxToCx (s.rows.getD c.toNat default) pos : Int) + s.linenooff)
      ∧ s2.rowoff = (s.rows.length : Int)
      ∧ s2.rows = s.rows := by
  intro fuel
  induction fuel with
  | zero => intro cur c s2 h; exact absurd h (by simp [findLoop])
  | succ f ih =>
    intro cur c s2 h
    simp only [findLoop] at h
    revert h
    cases hm : strstrPos query
        ((s.rows.getD (wrapIdx s.rows.length (cur + d)).toNat default).render) with
    | none => exact fun h => ih _ c s2 h
    | some pos =>
      intro h
      obtain ⟨hc, hs2⟩ := Prod.mk.injEq .. ▸ Option.some.injEq .. ▸ h
      subst hc
      subst hs2
      refine ⟨by rw [hm]; rfl, rfl, ?_, rfl, rfl⟩
      intro pos2 hpos2
      rw [hm] at hpos2
      obtain rfl : pos = pos2 := Option.some.injEq .. ▸ hpos2
      rfl

/-- Three-row buffer abc / xyz / abc used by the search example. -/
def searchExampleState : EState :=
  { linenooff := 2, modified := 0, filename := some "f.txt", cx := 2, cy := 0, rx := 2,
    rowoff := 0, coloff := 0, screenrows := 20, screencols := 80,
    rows := [mkRow ['a', 'b', 'c'], mkRow ['x', 'y', 'z'], mkRow ['a', 'b', 'c']],
    statusmsg := "" }

/-- C7: one search keystroke scans rows starting after the last-matched row
(-1, meaning row 0 first, when there is none), stepping by the direction
with circular wrap-around: the visited rows are exactly (cur + d(k+1)) mod
n for k below n, pairwise distinct, so each row is visited at most once;
the loop selects the first visited row whose render contains the query as
a literal substring and moves the cursor to that row, with cx given by
editorRowRxToCx at the match byte offset plus the gutter width (and rowoff
forced to the row count).  Concretely, on rows abc/xyz/abc with query abc,
last match 0 and forward direction, one step finds row 2 and a second
step wraps back to row 0. -/
theorem C7_search_scan (query : List Char) (s : EState) (cur d : Int)
    (hn : 0 < s.rows.length) (hc1 : -1 ≤ cur) (hc2 : cur < (s.rows.length : Int))
    (hd : d = 1 ∨ (d = -1 ∧ 0 ≤ cur)) :
    (findLoop query s d cur s.rows.length
        = firstHit query s (scanList s.rows.length d cur s.rows.length))
    ∧ scanList s.rows.length d cur s.rows.length
        = (List.range s.rows.length).map
            (fun (k : Nat) => (cur + d * ((k : Int) + 1)) % (s.rows.length : Int))
    ∧ (scanList s.rows.length d cur s.rows.length).Nodup
    ∧ (∀ (c : Int) (s2 : EState), findLoop query s d cur s.rows.length = some (c, s2) →
        (strstrPos query ((s.rows.getD c.toNat default).render)).isSome
        ∧ s2.cy = c
        ∧ (∀ pos, strstrPos query ((s.rows.getD c.toNat default).render) = some pos →
            s2.cx = (editorRowRxToCx (s.rows.getD c.toNat default) pos : Int) + s.linenooff)
        ∧ s2.rowoff = (s.rows.length : Int)
        ∧ s2.rows = s.rows)
    ∧ ((editorFindCallback ['a', 'b', 'c'] ARROW_RIGHT 0 1 searchExampleState).1 = 2
        ∧ (editorFindCallback ['a', 'b', 'c'] ARROW_RIGHT 0 1 searchExampleState).2.2.cy = 2
        ∧ (editorFindCallback ['a', 'b', 'c'] ARROW_RIGHT 2 1 searchExampleState).1 = 0
        ∧ (editorFindCallback ['a', 'b', 'c'] ARROW_RIGHT 2 1 searchExampleState).2.2.cy = 0) :=
  ⟨findLoop_eq_firstHit query s d s.rows.length cur,
   scanList_eq_map s.rows.length hn d s.rows.length cur hc1 hc2 hd,
   scanList_nodup s.rows.length hn d cur hc1 hc2 hd,
   fun c s2 h => findLoop_some query s d s.rows.length cur c s2 h,
   ⟨rfl, rfl, rfl, rfl⟩⟩

/-- Witness for C7: the concrete two-step example, obtained by applying the
theorem at the example state with last match 0 and forward direction. -/
theorem C7_search_scan_witness :
    (editorFindCallback ['a', 'b', 'c'] ARROW_RIGHT 0 1 searchExampleState).1 = 2
    ∧ (editorFindCallback ['a', 'b', 'c'] ARROW_RIGHT 2 1 searchExampleState).1 = 0
    ∧ (scanList 3 1 0 3).Nodup :=
  have h := C7_search_scan ['a', 'b', 'c'] searchExampleState 0 1 (by decide) (by decide)
    (by decide) (Or.inl rfl)
  ⟨h.2.2.2.2.1, h.2.2.2.2.2.2.1, h.2.2.1⟩
